import Mathlib

/-!
Shallow embedding of the AmourQR category router
(`src/server/api/routers/category.router.ts`) and of the bypass credential
strategy (`src/pages/api/auth/[...nextauth].ts`).

The relational store (Prisma) is modelled as explicit lists of rows; each
router procedure becomes a pure function from a store (plus the session user
id and the validated input) to a result, the successor store, and the trace of
image-store (ImageKit) calls it issued.  Machine `position` values are `Int`.
A JavaScript value that the source tests for truthiness (`if (x)`) is
modelled as an `Option String` that counts as absent when it is `none` or the
empty string, matching JS falsiness of `undefined` and `""`.
-/

set_option linter.unusedVariables false

namespace AmourQR

/-- A `Category` row: id, menuId, userId (owner), name, integer position,
optional imageUrl. -/
structure Category where
  id : String
  menuId : String
  userId : String
  name : String
  position : Int
  imageUrl : Option String
deriving Repr, DecidableEq

/-- A `MenuItem` row: belongs to one category, may reference an image. -/
structure MenuItem where
  id : String
  categoryId : String
  position : Int
  imageId : Option String
deriving Repr, DecidableEq

/-- An `Image` row (stored asset record, keyed by its id/path). -/
structure Image where
  id : String
deriving Repr, DecidableEq

/-- The relational store: the three tables the router touches. -/
structure Store where
  categories : List Category
  menuItems : List MenuItem
  images : List Image
deriving Repr, DecidableEq

/-- The image-store collaborator (ImageKit): `uploadPath b64 folder` is the
`filePath` the upload response would carry; the `Throws` flags say whether the
corresponding external call fails on this request. -/
structure ImageKitEnv where
  uploadPath : String → String → String
  uploadThrows : Bool
  deleteThrows : Bool
  bulkDeleteThrows : Bool

/-- One image-store call issued by a procedure, in issue order. -/
inductive ImgEvent where
  | uploadImage (base64 folder : String)
  | encodeBlurhash (base64 : String)
  | extractColor (base64 : String)
  | deleteFile (path : String)
  | bulkDeleteFiles (paths : List String)
deriving Repr, DecidableEq

/-- Errors a procedure can surface: a miss of a `findUniqueOrThrow` /
`update` / `delete` on the `id_userId` key (Prisma not-found, P2025), or an
uncaught image-store failure. -/
inductive Err where
  | notFound
  | imageKitError
deriving Repr, DecidableEq

/-- Result of a mutation: the returned value or error, the store after the
call, and the image-store calls issued. -/
structure OpResult (α : Type) where
  result : Except Err α
  store : Store
  events : List ImgEvent

/-- JS truthiness of an optional string: `undefined` and `""` are falsy. -/
def strTruthy : Option String → Bool
  | none => false
  | some s => decide (s ≠ "")

/-- Linear scan for the row whose `id` and `userId` both match. -/
def findCatList (cid uid : String) : List Category → Option Category
  | [] => none
  | c :: cs => if c.id = cid ∧ c.userId = uid then some c else findCatList cid uid cs

/-- `prisma.category.findUnique/findUniqueOrThrow` on the compound key
`id_userId`: the row whose `id` and `userId` both match. -/
def findCategoryByIdUser (st : Store) (cid uid : String) : Option Category :=
  findCatList cid uid st.categories

/-- `where: { menuId, userId }` filter used by `create` and `getAll`. -/
def categoriesOfMenu (st : Store) (m uid : String) : List Category :=
  st.categories.filter (fun c => decide (c.menuId = m ∧ c.userId = uid))

/-- `where: { menuId }` filter (all categories of a menu, any owner). -/
def menuCategories (st : Store) (m : String) : List Category :=
  st.categories.filter (fun c => decide (c.menuId = m))

/-- `findFirst({ orderBy: { position: "desc" } })`: some row of maximal
`position` (ties broken like the traversal order; only `.position` of the
result is ever consumed by the router). -/
def maxByPosition : List Category → Option Category
  | [] => none
  | c :: cs =>
    match maxByPosition cs with
    | none => some c
    | some d => if c.position < d.position then some d else some c

/-- `prisma.menuItem.findMany`-style filter: the items of a category. -/
def categoryItems (st : Store) (cid : String) : List MenuItem :=
  st.menuItems.filter (fun i => decide (i.categoryId = cid))

/-- The position `create` assigns: `lastCategoryItem ? lastCategoryItem.position + 1 : 0`,
where `lastCategoryItem` is `findFirst` on `(menuId, userId)` ordered by
descending position. -/
def nextPosition (st : Store) (m uid : String) : Int :=
  match maxByPosition (categoriesOfMenu st m uid) with
  | some lastCategoryItem => lastCategoryItem.position + 1
  | none => 0

/-- `categoryRouter.create`: reads the last category of the menu for the
caller (the `count` of the same transaction is never used by the source),
computes `position` as last+1 or 0, optionally uploads the image (blurhash
and dominant color are also computed, then dropped), and inserts the row.
`newId` stands for the id the store generates for the new row. -/
def createCategory (env : ImageKitEnv) (st : Store) (uid m name : String)
    (imageBase64 : Option String) (newId : String) : OpResult Category :=
  let pos : Int := nextPosition st m uid
  if strTruthy imageBase64 then
    let b64 := imageBase64.getD ""
    let folder := "user/" ++ uid ++ "/category"
    let events := [ImgEvent.uploadImage b64 folder, ImgEvent.encodeBlurhash b64,
      ImgEvent.extractColor b64]
    if env.uploadThrows then
      ⟨Except.error Err.imageKitError, st, events⟩
    else
      let newCat : Category :=
        ⟨newId, m, uid, name, pos, some (env.uploadPath b64 folder)⟩
      ⟨Except.ok newCat, { st with categories := st.categories ++ [newCat] }, events⟩
  else
    let newCat : Category := ⟨newId, m, uid, name, pos, none⟩
    ⟨Except.ok newCat, { st with categories := st.categories ++ [newCat] }, []⟩

/-- Stable insertion of a category into a position-sorted list. -/
def insertByPosition (c : Category) : List Category → List Category
  | [] => [c]
  | d :: ds =>
    if c.position ≤ d.position then c :: d :: ds else d :: insertByPosition c ds

/-- Sort by ascending `position` (`orderBy: { position: "asc" }`). -/
def sortByPosition : List Category → List Category
  | [] => []
  | c :: cs => insertByPosition c (sortByPosition cs)

/-- `categoryRouter.getAll`: the caller's categories of the menu, ordered by
ascending position.  (Each returned row also carries its items in the source;
no claim depends on that payload, so the embedding returns the rows.) -/
def getAll (st : Store) (uid m : String) : List Category :=
  sortByPosition (categoriesOfMenu st m uid)

/-- One relational write the router groups into a `$transaction` in `delete`. -/
inductive DbOp where
  | deleteMenuItemsOfCategory (categoryId : String)
  | deleteCategoryRow (id userId : String)
  | deleteImages (ids : List String)
deriving Repr, DecidableEq

/-- Semantics of one transactional write on the store. -/
def applyDbOp (st : Store) : DbOp → Store
  | DbOp.deleteMenuItemsOfCategory cid =>
    { st with menuItems := st.menuItems.filter (fun i => decide (¬ i.categoryId = cid)) }
  | DbOp.deleteCategoryRow cid uid =>
    { st with categories :=
        st.categories.filter (fun c => decide (¬ (c.id = cid ∧ c.userId = uid))) }
  | DbOp.deleteImages ids =>
    { st with images := st.images.filter (fun img => decide (¬ img.id ∈ ids)) }

/-- `prisma.$transaction(ops)`: the grouped writes applied atomically. -/
def applyTx (st : Store) (ops : List DbOp) : Store := ops.foldl applyDbOp st

/-- Result of `delete`: the pre-delete snapshot (category with its items) or
the error, the store after the call, the image-store calls issued, and the
writes that were grouped into the one `$transaction`. -/
structure DeleteResult where
  result : Except Err (Category × List MenuItem)
  store : Store
  events : List ImgEvent
  txOps : List DbOp

/-- The item image ids collected by `delete` (`if (item.imageId)` is a JS
truthiness test, so `undefined` and `""` are skipped). -/
def truthyImageIds : List MenuItem → List String
  | [] => []
  | i :: is =>
    match i.imageId with
    | some s => if s = "" then truthyImageIds is else s :: truthyImageIds is
    | none => truthyImageIds is

/-- `categoryRouter.delete`: loads the category with its items by
`id_userId` (throwing not-found on a miss), best-effort deletes the category
image (`try/catch`: a throw from `imageKit.deleteFile` is logged and
swallowed, so the flow continues either way), then runs the one
`$transaction` of row deletes — child `MenuItem`s, the `Category` row, and
(when item image ids exist) the `Image` rows — while `bulkDeleteFiles` is
issued outside that transaction.  The outcome does not depend on
`env.deleteThrows` or `env.bulkDeleteThrows`: both failures are invisible to
the caller (the parameter is kept to state exactly that independence). -/
def deleteCategory (env : ImageKitEnv) (st : Store) (uid cid : String) : DeleteResult :=
  match findCategoryByIdUser st cid uid with
  | none => ⟨Except.error Err.notFound, st, [], []⟩
  | some currentItem =>
    let items := categoryItems st cid
    let imagePaths := truthyImageIds items
    let ev1 : List ImgEvent :=
      if strTruthy currentItem.imageUrl then
        [ImgEvent.deleteFile (currentItem.imageUrl.getD "")]
      else []
    let txOps : List DbOp :=
      [DbOp.deleteMenuItemsOfCategory cid, DbOp.deleteCategoryRow cid uid] ++
        (if imagePaths.isEmpty then [] else [DbOp.deleteImages imagePaths])
    let ev2 : List ImgEvent :=
      if imagePaths.isEmpty then [] else [ImgEvent.bulkDeleteFiles imagePaths]
    ⟨Except.ok (currentItem, items), applyTx st txOps, ev1 ++ ev2, txOps⟩

/-- `prisma.category.update` on `id_userId`: replace the matching row. -/
def replaceCategory (st : Store) (cid uid : String) (newCat : Category) : Store :=
  { st with categories :=
      st.categories.map (fun c => if c.id = cid ∧ c.userId = uid then newCat else c) }

/-- `categoryRouter.update`: loads the row by `id_userId` (not-found on a
miss).  With a truthy `imageBase64`: first best-effort deletes the previous
image when one is set (`try/catch`, throw swallowed), then uploads the
replacement (NOT caught — a throw aborts before the row is written), and
writes `{ name, imageUrl }`; otherwise writes `{ name }` alone. -/
def updateCategory (env : ImageKitEnv) (st : Store) (uid cid name : String)
    (imageBase64 : Option String) : OpResult Category :=
  match findCategoryByIdUser st cid uid with
  | none => ⟨Except.error Err.notFound, st, []⟩
  | some currentItem =>
    if strTruthy imageBase64 then
      let b64 := imageBase64.getD ""
      let ev1 : List ImgEvent :=
        if strTruthy currentItem.imageUrl then
          [ImgEvent.deleteFile (currentItem.imageUrl.getD "")]
        else []
      let folder := "user/" ++ uid ++ "/category"
      let ev := ev1 ++ [ImgEvent.uploadImage b64 folder]
      if env.uploadThrows then
        ⟨Except.error Err.imageKitError, st, ev⟩
      else
        let updated := { currentItem with
          name := name, imageUrl := some (env.uploadPath b64 folder) }
        ⟨Except.ok updated, replaceCategory st cid uid updated, ev⟩
    else
      let updated := { currentItem with name := name }
      ⟨Except.ok updated, replaceCategory st cid uid updated, []⟩

/-- The sequence of `category.update` calls `updatePosition` groups into one
`$transaction`: `none` when some update misses its `id_userId` row (Prisma
P2025 — the whole transaction rolls back), otherwise the final store and the
updated rows in input order. -/
def applyPositionUpdates (st : Store) (uid : String) :
    List (String × Int) → Option (Store × List Category)
  | [] => some (st, [])
  | p :: rest =>
    match findCategoryByIdUser st p.1 uid with
    | none => none
    | some c =>
      let c' := { c with position := p.2 }
      match applyPositionUpdates (replaceCategory st p.1 uid c') uid rest with
      | none => none
      | some (st', cs) => some (st', c' :: cs)

/-- `categoryRouter.updatePosition`: all `{id, newPosition}` writes in one
atomic transaction; a single miss rolls the whole store back and surfaces
not-found.  No image-store call is made. -/
def updatePosition (st : Store) (uid : String) (input : List (String × Int)) :
    OpResult (List Category) :=
  match applyPositionUpdates st uid input with
  | none => ⟨Except.error Err.notFound, st, []⟩
  | some (st', cs) => ⟨Except.ok cs, st', []⟩

/-- The fixed identity object the bypass strategy manufactures. -/
structure AuthUser where
  email : String
  id : String
  image : String
  name : String
deriving Repr, DecidableEq

/-- The fixed test identity of the bypass credential strategy. -/
def testUserIdentity : AuthUser :=
  ⟨"testUser@gmail.com", "testUser", "", "Test User"⟩

/-- `CredentialsProvider.authorize`: `secretEnv` models
`process.env.TEST_MENUFIC_USER_LOGIN_KEY` (`none` = unset; the source guards
with JS truthiness, so `""` also fails the guard) and `loginKey` models
`credentials?.loginKey` (`none` when the credentials object or the field is
absent; `===` is exact string equality). -/
def bypassAuthorize (secretEnv : Option String) (loginKey : Option String) :
    Option AuthUser :=
  if strTruthy secretEnv ∧ loginKey = some (secretEnv.getD "") then
    some testUserIdentity
  else
    none

/-- `true` when no two rows of the category table share an `id` (the store
enforces `id` as primary key; `id_userId` is the compound unique the router
queries). -/
def idsUnique : List Category → Bool
  | [] => true
  | c :: cs => cs.all (fun d => decide (¬ c.id = d.id)) && idsUnique cs

/-- Iterated `create` calls without image payloads within one menu: `seq`
lists the `(newId, name)` pairs in call order; the result is the final store
and the created rows in creation order. -/
def createSeq (env : ImageKitEnv) (st : Store) (uid m : String) :
    List (String × String) → Store × List Category
  | [] => (st, [])
  | p :: rest =>
    let r := createCategory env st uid m p.2 none p.1
    match r.result with
    | Except.ok c =>
      let s := createSeq env r.store uid m rest
      (s.1, c :: s.2)
    | Except.error _ => (r.store, [])

/-- A sample image-store environment in which every external call succeeds. -/
def okEnv : ImageKitEnv :=
  ⟨fun _ folder => folder ++ "/file.png", false, false, false⟩

/-- An environment whose upload call throws. -/
def uploadFailEnv : ImageKitEnv :=
  ⟨fun _ folder => folder ++ "/file.png", true, false, false⟩

/-- An environment whose deleteFile and bulkDeleteFiles calls throw. -/
def deleteFailEnv : ImageKitEnv :=
  ⟨fun _ folder => folder ++ "/file.png", false, true, true⟩

/-- A one-category store whose only category belongs to user `u2`. -/
def c1Store : Store :=
  ⟨[⟨"cat1", "m1", "u2", "Starters", 0, none⟩], [], []⟩

/-- A store with one owned category carrying an image, one item that
references an image asset, and the matching `Image` row. -/
def c3Store : Store :=
  ⟨[⟨"cat1", "m1", "u1", "Starters", 0, some "cat1img"⟩],
   [⟨"item1", "cat1", 0, some "img1"⟩],
   [⟨"img1"⟩]⟩

/-- A two-category store owned by `u1` in menu `m1`, for reorder runs. -/
def c6Store : Store :=
  ⟨[⟨"catA", "m1", "u1", "Mains", 0, none⟩,
    ⟨"catB", "m1", "u1", "Desserts", 1, none⟩], [], []⟩

/-! ### Helper lemmas about the store primitives -/

lemma findCatList_eq_some {cid uid : String} {c : Category} {l : List Category}
    (h : findCatList cid uid l = some c) : c ∈ l ∧ c.id = cid ∧ c.userId = uid := by
  induction l with
  | nil => simp [findCatList] at h
  | cons d ds ih =>
    by_cases hd : d.id = cid ∧ d.userId = uid
    · rw [findCatList, if_pos hd] at h
      injection h with h
      subst h
      exact ⟨List.mem_cons_self _ _, hd⟩
    · rw [findCatList, if_neg hd] at h
      obtain ⟨hmem, hrest⟩ := ih h
      exact ⟨List.mem_cons_of_mem _ hmem, hrest⟩

lemma findCatList_eq_none {cid uid : String} {l : List Category} :
    findCatList cid uid l = none ↔ ∀ c ∈ l, ¬ (c.id = cid ∧ c.userId = uid) := by
  induction l with
  | nil => simp [findCatList]
  | cons d ds ih =>
    by_cases hd : d.id = cid ∧ d.userId = uid
    · rw [findCatList, if_pos hd]
      constructor
      · intro h
        exact absurd h (Option.some_ne_none d)
      · intro hall
        exact absurd hd (hall d (List.mem_cons_self _ _))
    · rw [findCatList, if_neg hd, ih]
      constructor
      · intro hall c hc
        rcases List.mem_cons.mp hc with rfl | hc
        · exact hd
        · exact hall c hc
      · intro hall c hc
        exact hall c (List.mem_cons_of_mem _ hc)

lemma findCatList_isSome {cid uid : String} {l : List Category} {c : Category}
    (hc : c ∈ l) (h1 : c.id = cid) (h2 : c.userId = uid) :
    ∃ d, findCatList cid uid l = some d := by
  cases h : findCatList cid uid l with
  | none => exact absurd ⟨h1, h2⟩ (findCatList_eq_none.mp h c hc)
  | some d => exact ⟨d, rfl⟩

lemma maxByPosition_eq_none {l : List Category} : maxByPosition l = none ↔ l = [] := by
  cases l with
  | nil => simp [maxByPosition]
  | cons c cs =>
    simp only [maxByPosition, List.cons_ne_nil, iff_false]
    cases h : maxByPosition cs with
    | none => simp
    | some d =>
      by_cases hlt : c.position < d.position <;> simp [hlt]

lemma maxByPosition_mem {l : List Category} {c : Category}
    (h : maxByPosition l = some c) : c ∈ l := by
  induction l with
  | nil => simp [maxByPosition] at h
  | cons d ds ih =>
    cases hm : maxByPosition ds with
    | none =>
      simp only [maxByPosition, hm] at h
      injection h with h
      subst h
      exact List.mem_cons_self _ _
    | some e =>
      simp only [maxByPosition, hm] at h
      by_cases hlt : d.position < e.position
      · rw [if_pos hlt] at h
        injection h with h
        subst h
        exact List.mem_cons_of_mem _ (ih hm)
      · rw [if_neg hlt] at h
        injection h with h
        subst h
        exact List.mem_cons_self _ _

lemma maxByPosition_ge {l : List Category} :
    ∀ {c : Category}, maxByPosition l = some c → ∀ d ∈ l, d.position ≤ c.position := by
  induction l with
  | nil =>
    intro c h
    simp [maxByPosition] at h
  | cons d ds ih =>
    intro c h e he
    cases hm : maxByPosition ds with
    | none =>
      simp only [maxByPosition, hm] at h
      injection h with h
      subst h
      rcases List.mem_cons.mp he with rfl | he
      · exact le_refl _
      · exact absurd (maxByPosition_eq_none.mp hm ▸ he) (List.not_mem_nil e)
    | some f =>
      simp only [maxByPosition, hm] at h
      by_cases hlt : d.position < f.position
      · rw [if_pos hlt] at h
        injection h with h
        subst h
        rcases List.mem_cons.mp he with rfl | he
        · exact le_of_lt hlt
        · exact ih hm e he
      · rw [if_neg hlt] at h
        injection h with h
        subst h
        rcases List.mem_cons.mp he with rfl | he
        · exact le_refl _
        · exact le_trans (ih hm e he) (le_of_not_lt hlt)

lemma mem_insertByPosition {c d : Category} {l : List Category} :
    d ∈ insertByPosition c l ↔ d = c ∨ d ∈ l := by
  induction l with
  | nil => simp [insertByPosition]
  | cons e es ih =>
    rw [insertByPosition]
    by_cases hle : c.position ≤ e.position
    · rw [if_pos hle]
      exact List.mem_cons
    · rw [if_neg hle]
      simp only [List.mem_cons, ih]
      tauto

lemma mem_sortByPosition {l : List Category} {d : Category} :
    d ∈ sortByPosition l ↔ d ∈ l := by
  induction l with
  | nil => simp [sortByPosition]
  | cons c cs ih =>
    rw [sortByPosition, mem_insertByPosition]
    simp [List.mem_cons, ih, eq_comm]

lemma idsUnique_unique {l : List Category} (h : idsUnique l = true) :
    ∀ c ∈ l, ∀ d ∈ l, c.id = d.id → c = d := by
  induction l with
  | nil => simp
  | cons a as ih =>
    rw [idsUnique, Bool.and_eq_true, List.all_eq_true] at h
    obtain ⟨hall, hrec⟩ := h
    have hall' : ∀ d ∈ as, ¬ a.id = d.id := by
      intro d hd
      simpa using hall d hd
    intro c hc d hd hid
    rcases List.mem_cons.mp hc with hca | hca
    · rcases List.mem_cons.mp hd with hda | hda
      · rw [hca, hda]
      · exact absurd (hca ▸ hid) (hall' d hda)
    · rcases List.mem_cons.mp hd with hda | hda
      · exact absurd (hda ▸ hid).symm (hall' c hca)
      · exact ih hrec c hca d hda hid

/-! ### Claim theorems -/

/-- C8: a `create` whose input has no `imageBase64` issues no image-store
call at all (no upload, no blurhash, no color extraction) and the created
category's `imageUrl` is unset. -/
theorem c8_create_without_image (env : ImageKitEnv) (st : Store)
    (uid m name newId : String) :
    (createCategory env st uid m name none newId).events = [] ∧
    ∃ c, (createCategory env st uid m name none newId).result = Except.ok c ∧
      c.imageUrl = none := by
  exact ⟨rfl, _, rfl, rfl⟩

/-- C9 counterexample: with the bypass secret environment variable set to the
empty string and an equal supplied loginKey, `authorize` returns null rather
than the fixed test identity — the source guards with JS truthiness, which
rejects `""` even though the variable is set and the keys are equal. -/
theorem c9_counterexample :
    bypassAuthorize (some "") (some "") = none ∧
    bypassAuthorize (some "") (some "") ≠ some testUserIdentity := by
  decide

/-- C9 amended: `authorize` returns the fixed test identity (id `testUser`,
email `testUser@gmail.com`, name `Test User`) exactly when the bypass secret
is set to a non-empty string and the supplied loginKey equals it; for every
other input — including every input when the secret is unset or set to the
empty string — it returns null, and no identity other than the fixed one is
ever produced. -/
theorem c9_bypass_key_characterization (secretEnv loginKey : Option String) :
    (bypassAuthorize secretEnv loginKey = some testUserIdentity ↔
      ∃ s, s ≠ "" ∧ secretEnv = some s ∧ loginKey = some s) ∧
    (bypassAuthorize secretEnv loginKey = none ∨
      bypassAuthorize secretEnv loginKey = some testUserIdentity) := by
  rcases secretEnv with _ | s
  · refine ⟨?_, Or.inl ?_⟩ <;> simp [bypassAuthorize, strTruthy]
  · by_cases hs : s = ""
    · subst hs
      refine ⟨?_, Or.inl ?_⟩
      · simp only [bypassAuthorize, strTruthy]
        constructor
        · intro h
          simp at h
        · rintro ⟨s', hs', hse, hke⟩
          injection hse with hse
          exact absurd hse.symm hs'
      · simp [bypassAuthorize, strTruthy]
    · by_cases hk : loginKey = some s
      · subst hk
        have hcond : (strTruthy (some s) = true) ∧
            (some s : Option String) = some ((some s : Option String).getD "") := by
          exact ⟨by simp [strTruthy, hs], rfl⟩
        constructor
        · rw [bypassAuthorize, if_pos hcond]
          exact ⟨fun _ => ⟨s, hs, rfl, rfl⟩, fun _ => rfl⟩
        · right
          rw [bypassAuthorize, if_pos hcond]
      · have hb : bypassAuthorize (some s) loginKey = none := by
          rw [bypassAuthorize, if_neg]
          intro hcond
          exact hk (by simpa using hcond.2)
        rw [hb]
        refine ⟨⟨fun h => absurd h (by simp), ?_⟩, Or.inl rfl⟩
        rintro ⟨s', hs', hse, hke⟩
        injection hse with hse
        exact absurd (hse ▸ hke) hk

/-- C5: with a (truthy) `imageBase64` payload and an upload that throws, the
error is not caught: `create` surfaces the image-store error with the
relational store unchanged, and `update` likewise leaves the store unchanged
and, whenever the target row exists, surfaces the same uncaught error. -/
theorem c5_upload_failure_aborts (env : ImageKitEnv) (st : Store)
    (uid m name cid newId b64 : String)
    (hthrow : env.uploadThrows = true) (hb : b64 ≠ "") :
    ((createCategory env st uid m name (some b64) newId).result =
        Except.error Err.imageKitError ∧
      (createCategory env st uid m name (some b64) newId).store = st) ∧
    ((updateCategory env st uid cid name (some b64)).store = st ∧
      ∀ c, findCategoryByIdUser st cid uid = some c →
        (updateCategory env st uid cid name (some b64)).result =
          Except.error Err.imageKitError) := by
  constructor
  · constructor <;> simp [createCategory, strTruthy, hb, hthrow]
  · constructor
    · cases hfind : findCategoryByIdUser st cid uid with
      | none => simp [updateCategory, hfind]
      | some c => simp [updateCategory, hfind, strTruthy, hb, hthrow]
    · intro c hfind
      simp [updateCategory, hfind, strTruthy, hb, hthrow]

/-- C5 witness at concrete inputs. -/
theorem c5_upload_failure_aborts_witness :
    (createCategory uploadFailEnv c3Store "u1" "m1" "Soups" (some "AAAA") "cat9").result =
        Except.error Err.imageKitError ∧
    (createCategory uploadFailEnv c3Store "u1" "m1" "Soups" (some "AAAA") "cat9").store =
      c3Store :=
  (c5_upload_failure_aborts uploadFailEnv c3Store "u1" "m1" "Soups" "cat1" "cat9" "AAAA"
    rfl (by decide)).1

/-- C7: an `update` carrying a new image on an owned category that already
has an image first issues `deleteFile` on the prior `imageUrl` and only then
the replacement upload, and even when that deletion throws (it is caught and
logged) the update completes with the freshly uploaded `imageUrl`. -/
theorem c7_update_replaces_image_despite_delete_failure (env : ImageKitEnv)
    (st : Store) (uid cid name b64 url : String) (c : Category)
    (hfind : findCategoryByIdUser st cid uid = some c)
    (hurl : c.imageUrl = some url) (hune : url ≠ "")
    (hb : b64 ≠ "") (hdel : env.deleteThrows = true)
    (hup : env.uploadThrows = false) :
    (updateCategory env st uid cid name (some b64)).events =
      [ImgEvent.deleteFile url,
        ImgEvent.uploadImage b64 ("user/" ++ uid ++ "/category")] ∧
    ∃ c', (updateCategory env st uid cid name (some b64)).result = Except.ok c' ∧
      c'.imageUrl = some (env.uploadPath b64 ("user/" ++ uid ++ "/category")) := by
  constructor
  · simp [updateCategory, hfind, strTruthy, hb, hurl, hune, hup]
  · exact ⟨{ c with
      name := name, imageUrl := some (env.uploadPath b64 ("user/" ++ uid ++ "/category")) },
      by simp [updateCategory, hfind, strTruthy, hb, hup], rfl⟩

lemma findCategoryByIdUser_def (st : Store) (cid uid : String) :
    findCategoryByIdUser st cid uid = findCatList cid uid st.categories := rfl

/-- C1 counterexample: caller `u1` against menu `m1`, whose only category
belongs to `u2`: `getAll` does not fail with a not-found error — it returns
the empty list — and `create` does not fail either: it succeeds and returns
a fresh position-0 row owned by the caller. -/
theorem c1_counterexample :
    getAll c1Store "u1" "m1" = [] ∧
    (createCategory okEnv c1Store "u1" "m1" "Soups" none "cat2").result =
      Except.ok ⟨"cat2", "m1", "u1", "Soups", 0, none⟩ := by
  exact ⟨rfl, rfl⟩

/-- C1 amended: given an id whose owning userId differs from the caller's,
update, delete and updatePosition fail with a not-found error and leave the
store unchanged; getAll does not fail but is owner-scoped — every row it
returns belongs to the caller, so another user's categories never appear —
and create performs no ownership check on menuId: it succeeds and the
created row is owned by the caller. -/
theorem c1_ownership_scoping (env : ImageKitEnv) (st : Store)
    (caller cid m name newId : String) (p : Int) (c : Category)
    (huniq : idsUnique st.categories = true)
    (hc : c ∈ st.categories) (hid : c.id = cid) (hother : c.userId ≠ caller) :
    (updateCategory env st caller cid name none).result = Except.error Err.notFound ∧
    (updateCategory env st caller cid name none).store = st ∧
    (deleteCategory env st caller cid).result = Except.error Err.notFound ∧
    (deleteCategory env st caller cid).store = st ∧
    (updatePosition st caller [(cid, p)]).result = Except.error Err.notFound ∧
    (updatePosition st caller [(cid, p)]).store = st ∧
    (∀ d ∈ getAll st caller m, d.userId = caller) ∧
    ∃ r, (createCategory env st caller m name none newId).result = Except.ok r ∧
      r.userId = caller := by
  have hnone : findCategoryByIdUser st cid caller = none := by
    rw [findCategoryByIdUser_def]
    apply findCatList_eq_none.mpr
    intro d hd hdprop
    have hdc : d = c := idsUnique_unique huniq d hd c hc (hdprop.1.trans hid.symm)
    exact hother (hdc ▸ hdprop.2)
  refine ⟨?_, ?_, ?_, ?_, ?_, ?_, ?_, ?_⟩
  · simp [updateCategory, hnone]
  · simp [updateCategory, hnone]
  · simp [deleteCategory, hnone]
  · simp [deleteCategory, hnone]
  · simp [updatePosition, applyPositionUpdates, hnone]
  · simp [updatePosition, applyPositionUpdates, hnone]
  · intro d hd
    rw [getAll] at hd
    have hd' := mem_sortByPosition.mp hd
    rw [categoriesOfMenu] at hd'
    exact (of_decide_eq_true (List.mem_filter.mp hd').2).2
  · exact ⟨_, rfl, rfl⟩

/-- C1 witness at concrete inputs. -/
theorem c1_ownership_scoping_witness :
    (updateCategory okEnv c1Store "u1" "cat1" "Renamed" none).result =
      Except.error Err.notFound :=
  (c1_ownership_scoping okEnv c1Store "u1" "cat1" "m1" "Renamed" "cat2" 5
    ⟨"cat1", "m1", "u2", "Starters", 0, none⟩ (by decide) (by decide) rfl
    (by decide)).1

/-- C3 counterexample: deleting a category whose item references an image
asset puts the `Image`-record deletion INSIDE the one `$transaction`
(`transactions.push(ctx.prisma.image.deleteMany(...))` in the source), so
the Image-record deletes are not issued outside the transaction as the claim
states. -/
theorem c3_counterexample :
    DbOp.deleteImages ["img1"] ∈ (deleteCategory okEnv c3Store "u1" "cat1").txOps := by
  decide

/-- C3 amended: delete groups the child MenuItem deletes, the Category row
delete, and — whenever item image references exist — the Image record
deletes into the single atomic `$transaction`, whose application yields the
final store; only the bulk image-asset deletion is issued outside that
transaction, and the whole outcome is independent of the image-store
environment, so an asset-deletion failure cannot affect the transactional
row deletes. -/
theorem c3_transaction_grouping (env env' : ImageKitEnv) (st : Store)
    (uid cid : String) (c : Category)
    (hfind : findCategoryByIdUser st cid uid = some c) :
    ((truthyImageIds (categoryItems st cid)).isEmpty = false →
      (deleteCategory env st uid cid).txOps =
        [DbOp.deleteMenuItemsOfCategory cid, DbOp.deleteCategoryRow cid uid,
          DbOp.deleteImages (truthyImageIds (categoryItems st cid))] ∧
      ImgEvent.bulkDeleteFiles (truthyImageIds (categoryItems st cid)) ∈
        (deleteCategory env st uid cid).events) ∧
    ((truthyImageIds (categoryItems st cid)).isEmpty = true →
      (deleteCategory env st uid cid).txOps =
        [DbOp.deleteMenuItemsOfCategory cid, DbOp.deleteCategoryRow cid uid]) ∧
    (deleteCategory env st uid cid).store =
      applyTx st (deleteCategory env st uid cid).txOps ∧
    deleteCategory env st uid cid = deleteCategory env' st uid cid := by
  refine ⟨?_, ?_, ?_, rfl⟩
  · intro hne
    refine ⟨by simp [deleteCategory, hfind, hne], ?_⟩
    simp [deleteCategory, hfind, hne]
  · intro he
    simp [deleteCategory, hfind, he]
  · simp [deleteCategory, hfind]

/-- C3 witness at concrete inputs. -/
theorem c3_transaction_grouping_witness :
    (deleteCategory okEnv c3Store "u1" "cat1").txOps =
      [DbOp.deleteMenuItemsOfCategory "cat1", DbOp.deleteCategoryRow "cat1" "u1",
        DbOp.deleteImages (truthyImageIds (categoryItems c3Store "cat1"))] ∧
    ImgEvent.bulkDeleteFiles (truthyImageIds (categoryItems c3Store "cat1")) ∈
      (deleteCategory okEnv c3Store "u1" "cat1").events :=
  (c3_transaction_grouping okEnv deleteFailEnv c3Store "u1" "cat1"
    ⟨"cat1", "m1", "u1", "Starters", 0, some "cat1img"⟩ rfl).1 (by decide)

lemma deleteCategory_found_store (env : ImageKitEnv) (st : Store) (uid cid : String)
    (c : Category) (hfind : findCategoryByIdUser st cid uid = some c) :
    (deleteCategory env st uid cid).result = Except.ok (c, categoryItems st cid) ∧
    (deleteCategory env st uid cid).store.categories =
      st.categories.filter (fun d => decide (¬ (d.id = cid ∧ d.userId = uid))) ∧
    (deleteCategory env st uid cid).store.menuItems =
      st.menuItems.filter (fun i => decide (¬ i.categoryId = cid)) := by
  refine ⟨by simp [deleteCategory, hfind], ?_, ?_⟩
  · cases hne : (truthyImageIds (categoryItems st cid)).isEmpty <;>
      simp [deleteCategory, hfind, hne, applyTx, applyDbOp]
  · cases hne : (truthyImageIds (categoryItems st cid)).isEmpty <;>
      simp [deleteCategory, hfind, hne, applyTx, applyDbOp]

/-- C4: delete on an owned category whose image-store deleteFile throws
still succeeds: the deleteFile call on the category's image is issued, its
error swallowed, the Category row and all its MenuItem rows are removed, and
a subsequent getAll for any menu never includes the deleted id. -/
theorem c4_delete_removes_rows_despite_image_error (env : ImageKitEnv)
    (st : Store) (uid cid url : String) (c : Category)
    (huniq : idsUnique st.categories = true)
    (hfind : findCategoryByIdUser st cid uid = some c)
    (hurl : c.imageUrl = some url) (hune : url ≠ "")
    (hthrow : env.deleteThrows = true) :
    (deleteCategory env st uid cid).result = Except.ok (c, categoryItems st cid) ∧
    ImgEvent.deleteFile url ∈ (deleteCategory env st uid cid).events ∧
    (∀ d ∈ (deleteCategory env st uid cid).store.categories, d.id ≠ cid) ∧
    (∀ i ∈ (deleteCategory env st uid cid).store.menuItems, i.categoryId ≠ cid) ∧
    ∀ m, cid ∉ (getAll (deleteCategory env st uid cid).store uid m).map Category.id := by
  obtain ⟨hres, hcats, hitems⟩ := deleteCategory_found_store env st uid cid c hfind
  obtain ⟨hcmem, hcid, hcuid⟩ := findCatList_eq_some (findCategoryByIdUser_def st cid uid ▸ hfind)
  have hnotid : ∀ d ∈ (deleteCategory env st uid cid).store.categories, d.id ≠ cid := by
    intro d hd heq
    rw [hcats] at hd
    obtain ⟨hdmem, hdp⟩ := List.mem_filter.mp hd
    have hdc : d = c := idsUnique_unique huniq d hdmem c hcmem (heq.trans hcid.symm)
    exact of_decide_eq_true hdp ⟨heq, hdc ▸ hcuid⟩
  refine ⟨hres, ?_, hnotid, ?_, ?_⟩
  · have hev : (deleteCategory env st uid cid).events =
        [ImgEvent.deleteFile url] ++
          (if (truthyImageIds (categoryItems st cid)).isEmpty then []
           else [ImgEvent.bulkDeleteFiles (truthyImageIds (categoryItems st cid))]) := by
      simp [deleteCategory, hfind, hurl, strTruthy, hune]
    rw [hev]
    exact List.mem_append_left _ (List.mem_singleton_self _)
  · intro i hi
    rw [hitems] at hi
    exact of_decide_eq_true (List.mem_filter.mp hi).2
  · intro m hmem
    obtain ⟨d, hd, hdid⟩ := List.mem_map.mp hmem
    rw [getAll] at hd
    have hd1 := mem_sortByPosition.mp hd
    rw [categoriesOfMenu] at hd1
    exact hnotid d (List.mem_filter.mp hd1).1 hdid

/-- C4 witness at concrete inputs. -/
theorem c4_delete_removes_rows_witness :
    (deleteCategory deleteFailEnv c3Store "u1" "cat1").result =
      Except.ok (⟨"cat1", "m1", "u1", "Starters", 0, some "cat1img"⟩,
        categoryItems c3Store "cat1") :=
  (c4_delete_removes_rows_despite_image_error deleteFailEnv c3Store "u1" "cat1"
    "cat1img" ⟨"cat1", "m1", "u1", "Starters", 0, some "cat1img"⟩ (by decide) rfl rfl
    (by decide) rfl).1

/-- C10: a successful update leaves id, menuId, userId and position of the
target row unchanged, sets the name, changes imageUrl only when a (truthy)
imageBase64 payload is supplied, rewrites only the target row of the
category table, and leaves the other tables untouched. -/
theorem c10_update_frame (env : ImageKitEnv) (st : Store)
    (uid cid name : String) (imageBase64 : Option String) (c c' : Category)
    (hfind : findCategoryByIdUser st cid uid = some c)
    (hok : (updateCategory env st uid cid name imageBase64).result = Except.ok c') :
    c'.id = c.id ∧ c'.menuId = c.menuId ∧ c'.userId = c.userId ∧
    c'.position = c.position ∧ c'.name = name ∧
    (strTruthy imageBase64 = false → c'.imageUrl = c.imageUrl) ∧
    (updateCategory env st uid cid name imageBase64).store.categories =
      st.categories.map (fun d => if d.id = cid ∧ d.userId = uid then c' else d) ∧
    (updateCategory env st uid cid name imageBase64).store.menuItems = st.menuItems ∧
    (updateCategory env st uid cid name imageBase64).store.images = st.images := by
  cases htr : strTruthy imageBase64 with
  | false =>
    have hc' : c' = { c with name := name } := by
      simp [updateCategory, hfind, htr] at hok
      exact hok.symm
    subst hc'
    refine ⟨rfl, rfl, rfl, rfl, rfl, fun _ => rfl, ?_, ?_, ?_⟩ <;>
      simp [updateCategory, hfind, htr, replaceCategory]
  | true =>
    cases hut : env.uploadThrows with
    | true => simp [updateCategory, hfind, htr, hut] at hok
    | false =>
      have hc' : c' = { c with
          name := name,
          imageUrl := some (env.uploadPath (imageBase64.getD "")
            ("user/" ++ uid ++ "/category")) } := by
        simp [updateCategory, hfind, htr, hut] at hok
        exact hok.symm
      subst hc'
      refine ⟨rfl, rfl, rfl, rfl, rfl, ?_, ?_, ?_, ?_⟩
      · intro hcontra
        exact absurd hcontra (by decide)
      all_goals simp [updateCategory, hfind, htr, hut, replaceCategory]

/-- C10 witness at concrete inputs. -/
theorem c10_update_frame_witness :
    Category.position
        ⟨"cat1", "m1", "u1", "Starters2", 0, some "cat1img"⟩ =
      Category.position ⟨"cat1", "m1", "u1", "Starters", 0, some "cat1img"⟩ :=
  (c10_update_frame okEnv c3Store "u1" "cat1" "Starters2" none
    ⟨"cat1", "m1", "u1", "Starters", 0, some "cat1img"⟩
    ⟨"cat1", "m1", "u1", "Starters2", 0, some "cat1img"⟩ rfl rfl).2.2.2.1

lemma filter_menu_of_owned {m uid : String} {l : List Category}
    (hown : ∀ c ∈ l, c.menuId = m → c.userId = uid) :
    l.filter (fun c => decide (c.menuId = m ∧ c.userId = uid)) =
      l.filter (fun c => decide (c.menuId = m)) := by
  apply List.filter_congr
  intro c hc
  by_cases hcm : c.menuId = m
  · simp [hcm, hown c hc hcm]
  · simp [hcm]

lemma categoriesOfMenu_eq_menuCategories {st : Store} {m uid : String}
    (hown : ∀ c ∈ st.categories, c.menuId = m → c.userId = uid) :
    categoriesOfMenu st m uid = menuCategories st m :=
  filter_menu_of_owned hown

lemma nextPosition_of_range {st : Store} {m uid : String} {j : Nat}
    (h : (categoriesOfMenu st m uid).map Category.position =
      (List.range j).map Int.ofNat) :
    nextPosition st m uid = Int.ofNat j := by
  cases j with
  | zero =>
    have h' : (categoriesOfMenu st m uid).map Category.position = [] := by
      simpa using h
    have hnil : categoriesOfMenu st m uid = [] := List.map_eq_nil_iff.mp h'
    rw [nextPosition, hnil]
    rfl
  | succ k =>
    cases hmx : maxByPosition (categoriesOfMenu st m uid) with
    | none =>
      rw [maxByPosition_eq_none.mp hmx] at h
      rw [List.range_succ] at h
      simp at h
    | some cmax =>
      have hmem := maxByPosition_mem hmx
      have hin : cmax.position ∈ (List.range (k + 1)).map Int.ofNat := by
        rw [← h]
        exact List.mem_map_of_mem _ hmem
      obtain ⟨i, hi, hip⟩ := List.mem_map.mp hin
      have hik : i ≤ k := Nat.lt_succ_iff.mp (List.mem_range.mp hi)
      have hkmem : Int.ofNat k ∈ (categoriesOfMenu st m uid).map Category.position := by
        rw [h]
        exact List.mem_map_of_mem _ (List.mem_range.mpr (Nat.lt_succ_self k))
      obtain ⟨d, hd, hdp⟩ := List.mem_map.mp hkmem
      have h1 : cmax.position ≤ Int.ofNat k := by
        rw [← hip]
        exact Int.ofNat_le.mpr hik
      have h2 : Int.ofNat k ≤ cmax.position := hdp ▸ maxByPosition_ge hmx d hd
      have hck : cmax.position = Int.ofNat k := le_antisymm h1 h2
      rw [nextPosition]
      simp only [hmx]
      rw [hck]
      rfl

lemma categoriesOfMenu_append_categories (st : Store) (l : List Category)
    (m uid : String) :
    categoriesOfMenu { st with categories := st.categories ++ l } m uid =
      categoriesOfMenu st m uid ++
        l.filter (fun c => decide (c.menuId = m ∧ c.userId = uid)) :=
  List.filter_append _ _

lemma createSeq_positions (env : ImageKitEnv) (uid m : String) :
    ∀ (seq : List (String × String)) (st : Store) (j : Nat),
      (categoriesOfMenu st m uid).map Category.position =
        (List.range j).map Int.ofNat →
      (createSeq env st uid m seq).2.map Category.position =
        (List.range' j seq.length).map Int.ofNat := by
  intro seq
  induction seq with
  | nil =>
    intro st j h
    simp [createSeq]
  | cons p rest ih =>
    intro st j h
    have hpos : nextPosition st m uid = Int.ofNat j := nextPosition_of_range h
    have hcreate : (createCategory env st uid m p.2 none p.1).result =
        Except.ok ⟨p.1, m, uid, p.2, nextPosition st m uid, none⟩ := rfl
    have hstore : (createCategory env st uid m p.2 none p.1).store =
        { st with categories :=
            st.categories ++ [⟨p.1, m, uid, p.2, nextPosition st m uid, none⟩] } := rfl
    have hnew : (categoriesOfMenu (createCategory env st uid m p.2 none p.1).store m
        uid).map Category.position = (List.range (j + 1)).map Int.ofNat := by
      rw [hstore, categoriesOfMenu_append_categories, List.map_append, h,
        List.range_succ, List.map_append]
      simp [hpos]
    have hrest := ih (createCategory env st uid m p.2 none p.1).store (j + 1) hnew
    show (createSeq env st uid m (p :: rest)).2.map Category.position = _
    rw [createSeq]
    simp only [hcreate]
    rw [List.length_cons, List.range'_succ]
    simp only [List.map_cons]
    exact congrArg₂ _ (by simp [hpos]) hrest

/-- C2: create assigns position (max over the menu's existing categories) + 1,
or 0 when the menu has none; hence a run of creates in one menu starting from
an empty menu assigns positions 0, 1, 2, ... in order.  The hypothesis is the
spec's ownership invariant: every category of the menu belongs to the
caller. -/
theorem c2_create_position (env : ImageKitEnv) (st : Store)
    (uid m name newId : String) (seq : List (String × String))
    (hown : ∀ c ∈ st.categories, c.menuId = m → c.userId = uid) :
    (∃ cNew, (createCategory env st uid m name none newId).result = Except.ok cNew ∧
      ((menuCategories st m = [] → cNew.position = 0) ∧
       ∀ d ∈ menuCategories st m,
         (∀ e ∈ menuCategories st m, e.position ≤ d.position) →
           cNew.position = d.position + 1)) ∧
    (menuCategories st m = [] →
      (createSeq env st uid m seq).2.map Category.position =
        (List.range seq.length).map Int.ofNat) := by
  have hmenus : categoriesOfMenu st m uid = menuCategories st m :=
    categoriesOfMenu_eq_menuCategories hown
  constructor
  · refine ⟨⟨newId, m, uid, name, nextPosition st m uid, none⟩, rfl, ?_, ?_⟩
    · intro hempty
      show nextPosition st m uid = 0
      rw [nextPosition, hmenus, hempty]
      rfl
    · intro d hd hmax
      show nextPosition st m uid = d.position + 1
      rw [nextPosition, hmenus]
      cases hmx : maxByPosition (menuCategories st m) with
      | none =>
        rw [maxByPosition_eq_none.mp hmx] at hd
        exact absurd hd (List.not_mem_nil d)
      | some cmax =>
        have hle : cmax.position ≤ d.position := hmax cmax (maxByPosition_mem hmx)
        have hge : d.position ≤ cmax.position := maxByPosition_ge hmx d hd
        simp only [hmx]
        rw [le_antisymm hle hge]
  · intro hempty
    have h0 : (categoriesOfMenu st m uid).map Category.position =
        (List.range 0).map Int.ofNat := by
      rw [hmenus, hempty]
      rfl
    have := createSeq_positions env uid m seq st 0 h0
    rwa [← List.range_eq_range' seq.length] at this

/-- C2 witness at concrete inputs: two creations in an initially empty menu
get positions 0 and 1. -/
theorem c2_create_position_witness :
    (createSeq okEnv (Store.mk [] [] []) "u1" "m1"
        [("cat1", "Starters"), ("cat2", "Mains")]).2.map Category.position =
      (List.range 2).map Int.ofNat :=
  (c2_create_position okEnv (Store.mk [] [] []) "u1" "m1" "Soups" "cat9"
    [("cat1", "Starters"), ("cat2", "Mains")] (by intro c hc; cases hc)).2 rfl

lemma replaceCategory_mem_exists {st : Store} {cid uid i2 : String} {c' : Category}
    (hc'id : c'.id = cid) (hc'u : c'.userId = uid)
    (h : ∃ c ∈ st.categories, c.id = i2 ∧ c.userId = uid) :
    ∃ c ∈ (replaceCategory st cid uid c').categories, c.id = i2 ∧ c.userId = uid := by
  obtain ⟨c, hc, h1, h2⟩ := h
  by_cases hmatch : c.id = cid ∧ c.userId = uid
  · refine ⟨c', List.mem_map.mpr ⟨c, hc, by simp [hmatch]⟩, ?_, hc'u⟩
    rw [hc'id, ← hmatch.1]
    exact h1
  · exact ⟨c, List.mem_map.mpr ⟨c, hc, by simp [hmatch]⟩, h1, h2⟩

lemma applyPositionUpdates_ok {uid : String} :
    ∀ (input : List (String × Int)) (st : Store),
      (∀ q ∈ input, ∃ c ∈ st.categories, c.id = q.1 ∧ c.userId = uid) →
      ∃ r, applyPositionUpdates st uid input = some r := by
  intro input
  induction input with
  | nil =>
    intro st h
    exact ⟨(st, []), rfl⟩
  | cons q rest ih =>
    intro st h
    obtain ⟨c, hc, h1, h2⟩ := h q (List.mem_cons_self _ _)
    obtain ⟨d, hd⟩ := findCatList_isSome hc h1 h2
    have hfind : findCategoryByIdUser st q.1 uid = some d := hd
    obtain ⟨hdmem, hdid, hduid⟩ := findCatList_eq_some hd
    have hrest : ∀ q' ∈ rest,
        ∃ c ∈ (replaceCategory st q.1 uid { d with position := q.2 }).categories,
          c.id = q'.1 ∧ c.userId = uid := by
      intro q' hq'
      exact replaceCategory_mem_exists hdid hduid (h q' (List.mem_cons_of_mem _ hq'))
    obtain ⟨r, hr⟩ := ih _ hrest
    exact ⟨(r.1, { d with position := q.2 } :: r.2), by
      simp only [applyPositionUpdates, hfind, hr]⟩

/-- C6: updatePosition applies all caller-supplied reassignments in one
atomic transaction — whenever every listed id is owned by the caller it
succeeds with no validation of contiguity or uniqueness of the new
positions, and whenever it errors the store is left unchanged (rollback);
getAll orders by ascending position, so reassigning positions 2 and 1 to
owned categories A and B of the same menu makes getAll return B before A. -/
theorem c6_update_position_reorder (st : Store) (uid : String)
    (input : List (String × Int)) (A B : Category) (mi : List MenuItem)
    (im : List Image) (m : String)
    (hA : A.menuId = m) (hAu : A.userId = uid)
    (hB : B.menuId = m) (hBu : B.userId = uid) (hne : A.id ≠ B.id) :
    ((∀ q ∈ input, ∃ c ∈ st.categories, c.id = q.1 ∧ c.userId = uid) →
      ∃ l, (updatePosition st uid input).result = Except.ok l) ∧
    (∀ e, (updatePosition st uid input).result = Except.error e →
      (updatePosition st uid input).store = st) ∧
    (getAll (updatePosition (Store.mk [A, B] mi im) uid
        [(A.id, 2), (B.id, 1)]).store uid m).map Category.id = [B.id, A.id] := by
  have hne' : B.id ≠ A.id := Ne.symm hne
  refine ⟨?_, ?_, ?_⟩
  · intro hown
    obtain ⟨r, hr⟩ := applyPositionUpdates_ok input st hown
    exact ⟨r.2, by simp [updatePosition, hr]⟩
  · intro e he
    cases happly : applyPositionUpdates st uid input with
    | none => simp [updatePosition, happly]
    | some r => simp [updatePosition, happly] at he
  · simp [updatePosition, applyPositionUpdates, findCategoryByIdUser_def,
      findCatList, replaceCategory, getAll, categoriesOfMenu, sortByPosition,
      insertByPosition, hA, hAu, hB, hBu, hne, hne',
      show ¬ ((2 : Int) ≤ 1) by norm_num]

/-- C6 witness at concrete inputs. -/
theorem c6_update_position_witness :
    (getAll (updatePosition c6Store "u1"
        [("catA", 2), ("catB", 1)]).store "u1" "m1").map Category.id =
      ["catB", "catA"] :=
  (c6_update_position_reorder c6Store "u1" [("catA", 2), ("catB", 1)]
    ⟨"catA", "m1", "u1", "Mains", 0, none⟩ ⟨"catB", "m1", "u1", "Desserts", 1, none⟩
    [] [] "m1" rfl rfl rfl rfl (by decide)).2.2

/-- C7 witness at concrete inputs. -/
theorem c7_update_replaces_image_witness :
    (updateCategory deleteFailEnv c3Store "u1" "cat1" "Starters2" (some "AAAA")).events =
      [ImgEvent.deleteFile "cat1img",
        ImgEvent.uploadImage "AAAA" ("user/" ++ "u1" ++ "/category")] :=
  (c7_update_replaces_image_despite_delete_failure deleteFailEnv c3Store "u1" "cat1"
    "Starters2" "AAAA" "cat1img" ⟨"cat1", "m1", "u1", "Starters", 0, some "cat1img"⟩
    rfl rfl (by decide) (by decide) rfl rfl).1

end AmourQR
